import Mathlib

/-!
Shallow embedding of the VE.Direct frame codec (`src/vedirect.rs`).

Bytes are modelled as `Nat` values; every place the Rust code relies on
`u8` wrap-around is made explicit with `% 256`.  Fallible Rust functions
(`Result<_, Error>`) become `Except Error _`; Rust panics (out-of-bounds
indexing, `unwrap` on `None`/`Err`, integer-underflow in an index
computation) are modelled by an outer `Option`, where `none` means the
call panics.  Field and function names follow the source.
-/

deriving instance DecidableEq for Except

namespace VeDirect

/-- The error enumeration of `vedirect.rs` (`enum Error`).  Payloads of the
`thiserror` variants that only wrap foreign error types are dropped; the
`Hex` variant keeps the offending byte as in the source.  The transport-only
variant wrapping I/O failures is omitted: no pure codec path produces it. -/
inductive Error where
  /-- `Error::Hex(u8)`: invalid hex data. -/
  | Hex (c : Nat)
  /-- `Error::Length`: too much or too little data. -/
  | Length
  /-- `Error::Checksum`: invalid or missing checksum. -/
  | Checksum
  /-- `Error::Response`: invalid response id (`TryFromPrimitiveError<ResponseId>`). -/
  | Response
  /-- `Error::Error`: invalid error id (`TryFromPrimitiveError<ErrorId>`). -/
  | ErrId
  /-- `Error::Slice`: slice length mismatch (`TryFromSliceError`). -/
  | Slice
  /-- `Error::Flags`: invalid flags byte. -/
  | Flags
  /-- `Error::Item`: invalid item id (`TryFromPrimitiveError<ItemId>`). -/
  | Item
  deriving DecidableEq

/-- `fn nibble(c: u8) -> Result<u8, Error>`: ASCII hex digit to 4-bit value.
`48..57` is `'0'..'9'`, `65..70` is `'A'..'F'`, `97..102` is `'a'..'f'`. -/
def nibble (c : Nat) : Except Error Nat :=
  if 48 ≤ c ∧ c ≤ 57 then .ok (c - 48)
  else if 65 ≤ c ∧ c ≤ 70 then .ok (c - 65 + 10)
  else if 97 ≤ c ∧ c ≤ 102 then .ok (c - 97 + 10)
  else .error (.Hex c)

/-- `fn hex(c: u8) -> Result<u8, Error>`: 4-bit value to uppercase ASCII hex
digit. -/
def hex (c : Nat) : Except Error Nat :=
  if c ≤ 9 then .ok (48 + c)
  else if 10 ≤ c ∧ c ≤ 15 then .ok (65 + (c - 10))
  else .error (.Hex c)

/-- The decoder/encoder state enumeration (`enum State`). -/
inductive State where
  | Start
  | LowNibble
  | HighNibble
  | Text
  deriving DecidableEq

/-- `struct Frame { data: Vec<u8> }`. -/
structure Frame where
  data : List Nat
  deriving DecidableEq

/-- `Frame::checksum`: 8-bit wrapping sum (`fold(0u8, wrapping_add)`) of the
buffered bytes. -/
def Frame.checksum (f : Frame) : Nat :=
  f.data.foldl (fun a e => (a + e) % 256) 0

/-- `Frame::valid`: non-empty buffer whose checksum is `0x55` or `0x00`. -/
def Frame.valid (f : Frame) : Bool :=
  !f.data.isEmpty && (f.checksum == 0x55 || f.checksum == 0x00)

/-- The text-mode end marker `b"\nChecksum\t"` checked by
`self.frame.data.ends_with(..)` in `FrameDe::push`. -/
def checksumTag : List Nat := [10, 67, 104, 101, 99, 107, 115, 117, 109, 9]

/-- The state of a `FrameDe<'a>`: the borrowed frame buffer plus the state
machine state.  A fresh decoder (`Frame::default()` + `Frame::de`) is
`⟨[], .Start⟩`. -/
structure DeSt where
  data : List Nat
  state : State
  deriving DecidableEq

/-- `FrameDe::push`.  The result is `none` when the Rust code panics (the
`last_mut().unwrap()` in the `LowNibble` arm on an empty buffer, which is
unreachable from a fresh decoder); otherwise `some (r, s')` where `r` is the
returned `Result` and `s'` the decoder state after the call (on an `Err`
from `nibble` the `?` operator returns before any mutation, so `s' = s`). -/
def DeSt.push (s : DeSt) (c : Nat) : Option (Except Error Unit × DeSt) :=
  match s.state with
  | .Start =>
      -- buffer is cleared, then one byte pushed
      if c == 58 then
        some (.ok (), ⟨[0], .LowNibble⟩)   -- ':' : id high nibble is 0
      else
        some (.ok (), ⟨[c], .Text⟩)
  | .LowNibble =>
      match s.data.getLast? with
      | none => none                        -- `last_mut().unwrap()` panics
      | some x =>
          match nibble c with
          | .error e => some (.error e, s)
          | .ok n => some (.ok (), ⟨s.data.dropLast ++ [x ||| n], .HighNibble⟩)
  | .HighNibble =>
      if c == 10 then
        some (.ok (), ⟨s.data, .Start⟩)     -- '\n'
      else
        match nibble c with
        | .error e => some (.error e, s)
        | .ok n => some (.ok (), ⟨s.data ++ [n <<< 4], .LowNibble⟩)
  | .Text =>
      if checksumTag.isSuffixOf s.data then
        some (.ok (), ⟨s.data ++ [c], .Start⟩)
      else
        some (.ok (), ⟨s.data ++ [c], .Text⟩)

/-- `FrameDe::done`: the state machine is back at `Start`. -/
def DeSt.done (s : DeSt) : Bool := s.state == .Start

/-- The push loop of `impl TryFrom<&[u8]> for Frame`: push each byte with
`?`, stopping at the first error; `none` propagates a panic. -/
def pushAll (s : DeSt) : List Nat → Option (Except Error DeSt)
  | [] => some (.ok s)
  | c :: rest =>
      match s.push c with
      | none => none
      | some (.error e, _) => some (.error e)
      | some (.ok _, s') => pushAll s' rest

/-- `impl TryFrom<&[u8]> for Frame`: decode a byte slice into a frame,
then require `done()` (else `Error::Length`) and `valid()` (else
`Error::Checksum`). -/
def Frame.tryFrom (value : List Nat) : Option (Except Error Frame) :=
  match pushAll ⟨[], .Start⟩ value with
  | none => none
  | some (.error e) => some (.error e)
  | some (.ok d) =>
      if !d.done then some (.error .Length)
      else if !(Frame.mk d.data).valid then some (.error .Checksum)
      else some (.ok ⟨d.data⟩)

/-- The state of a `FrameSer<'a>` iterator: a read position into the frame
buffer plus the state machine state.  `Frame::ser` starts it at
`⟨0, .Start⟩`. -/
structure SerSt where
  pos : Nat
  state : State
  deriving DecidableEq

/-- One outcome of `<FrameSer as Iterator>::next`. -/
inductive SerOut where
  /-- `Some(b)` was returned and the iterator state updated. -/
  | yield (b : Nat) (s : SerSt)
  /-- `None` was returned: iteration finished. -/
  | stop
  /-- The call panics: out-of-bounds indexing into `frame.data`, the
  `hex(..).unwrap()` on an out-of-range nibble, or the `unreachable!()`
  in the `Text` arm. -/
  | panic
  deriving DecidableEq

/-- `<FrameSer as Iterator>::next` on a frame buffer `data`. -/
def serNext (data : List Nat) (s : SerSt) : SerOut :=
  match s.state with
  | .Start =>
      if s.pos > 0 then .stop
      else .yield 58 ⟨s.pos, .LowNibble⟩                  -- ':'
  | .LowNibble =>
      -- `self.pos += 1; hex(self.frame.data[self.pos - 1] & 0xf).unwrap()`
      match data[s.pos + 1 - 1]? with
      | none => .panic
      | some b =>
          match hex (b &&& 0xf) with
          | .error _ => .panic
          | .ok d => .yield d ⟨s.pos + 1, .HighNibble⟩
  | .HighNibble =>
      if s.pos == data.length then .yield 10 ⟨s.pos, .Start⟩  -- '\n'
      else
        match data[s.pos]? with
        | none => .panic
        | some b =>
            match hex (b >>> 4) with
            | .error _ => .panic
            | .ok d => .yield d ⟨s.pos, .LowNibble⟩
  | .Text => .panic                                       -- `unreachable!()`

/-- Drive `serNext` to exhaustion, collecting the yielded bytes
(`frame.ser().collect::<Vec<u8>>()`).  The fuel argument only bounds the
iteration for termination; `serCollect` below supplies enough fuel for any
run that terminates, so `none` means the iterator panicked (or diverged,
which it cannot). -/
def serCollectFuel (data : List Nat) : Nat → SerSt → Option (List Nat)
  | 0, _ => none
  | fuel + 1, s =>
      match serNext data s with
      | .stop => some []
      | .panic => none
      | .yield b s' =>
          match serCollectFuel data fuel s' with
          | none => none
          | some rest => some (b :: rest)

/-- `frame.ser().collect::<Vec<u8>>()`: the full serialized byte sequence of
a frame; `none` when the iterator panics (it does on an empty buffer). -/
def serCollect (f : Frame) : Option (List Nat) :=
  serCollectFuel f.data (2 * f.data.length + 3) ⟨0, .Start⟩

/-- `enum CommandId` with its `#[repr(u8)]` discriminants. -/
inductive CommandId where
  | Boot | Ping | Version | Product | Restart | Get | Set | Async
  deriving DecidableEq

/-- The wire code of a `CommandId` (its Rust discriminant, used by the
`as _` cast in `Command::as_frame`). -/
def CommandId.code : CommandId → Nat
  | .Boot => 0
  | .Ping => 1
  | .Version => 3
  | .Product => 4
  | .Restart => 6
  | .Get => 7
  | .Set => 8
  | .Async => 0xA

/-- `enum ResponseId` with its `#[repr(u8)]` discriminants. -/
inductive ResponseId where
  | Done | Unknown | Error | Ping | Get | Set | Async
  deriving DecidableEq

/-- The wire code of a `ResponseId` (its Rust discriminant). -/
def ResponseId.code : ResponseId → Nat
  | .Done => 1
  | .Unknown => 3
  | .Error => 4
  | .Ping => 5
  | .Get => 7
  | .Set => 8
  | .Async => 0xA

/-- The derived `TryFromPrimitive` conversion for `ResponseId`: the wire
code back to the variant, `none` for an unrecognized code. -/
def ResponseId.tryFrom (n : Nat) : Option ResponseId :=
  if n = 1 then some .Done
  else if n = 3 then some .Unknown
  else if n = 4 then some .Error
  else if n = 5 then some .Ping
  else if n = 7 then some .Get
  else if n = 8 then some .Set
  else if n = 0xA then some .Async
  else none

/-- `enum ErrorId` with its `#[repr(u16)]` discriminants. -/
inductive ErrorId where
  | Checksum | Boot
  deriving DecidableEq

/-- The wire code of an `ErrorId`. -/
def ErrorId.code : ErrorId → Nat
  | .Checksum => 0xAAAA
  | .Boot => 0

/-- The derived `TryFromPrimitive` conversion for `ErrorId`. -/
def ErrorId.tryFrom (n : Nat) : Option ErrorId :=
  if n = 0xAAAA then some .Checksum
  else if n = 0 then some .Boot
  else none

/-- `enum ItemId` with its `#[repr(u16)]` discriminants. -/
inductive ItemId where
  | Product
  | Group
  | Serial
  | Model
  | Unknown0x010e
  | Capabilities
  | Mode
  | State
  | Remote
  | OffReason1
  | OffReason2
  | TotalHistory
  | DailyHistory0
  | BatteryVoltageSense
  | BatteryTemperatureSense
  | NetworkInfo
  | NetworkMode
  | TotalChargeCurrent
  | TotalDCInputPower
  | SolarActivity
  | TimeOfDay
  | Unknown0xc6a3
  | BatteryTemperature
  | SystemYield
  | ChargerTemperature
  | ChargerCurrent
  | AdditionalChargerStateInfo
  | ChargerVoltage
  | YieldToday
  | MaximumPowerToday
  | YieldYesterday
  | MaximumPowerYesterday
  | PanelPower
  | PanelVoltage
  | PanelCurrent
  | LoadVoltage
  | LoadCurrent
  | BatteryMaximumCurrent
  deriving DecidableEq

/-- The wire code of an `ItemId` (its Rust discriminant). -/
def ItemId.code : ItemId → Nat
  | .Product => 0x0100
  | .Group => 0x0104
  | .Serial => 0x010a
  | .Model => 0x010b
  | .Unknown0x010e => 0x010e
  | .Capabilities => 0x0140
  | .Mode => 0x0200
  | .State => 0x0201
  | .Remote => 0x0202
  | .OffReason1 => 0x0205
  | .OffReason2 => 0x0207
  | .TotalHistory => 0x104f
  | .DailyHistory0 => 0x1050
  | .BatteryVoltageSense => 0x2002
  | .BatteryTemperatureSense => 0x2003
  | .NetworkInfo => 0x200d
  | .NetworkMode => 0x200e
  | .TotalChargeCurrent => 0x2013
  | .TotalDCInputPower => 0x2027
  | .SolarActivity => 0x2030
  | .TimeOfDay => 0x2031
  | .Unknown0xc6a3 => 0xc6a3
  | .BatteryTemperature => 0xedec
  | .SystemYield => 0xeddd
  | .ChargerTemperature => 0xeddb
  | .ChargerCurrent => 0xedd7
  | .AdditionalChargerStateInfo => 0xedd4
  | .ChargerVoltage => 0xedd5
  | .YieldToday => 0xedd3
  | .MaximumPowerToday => 0xedd2
  | .YieldYesterday => 0xedd1
  | .MaximumPowerYesterday => 0xedd0
  | .PanelPower => 0xedbc
  | .PanelVoltage => 0xedbb
  | .PanelCurrent => 0xedbd
  | .LoadVoltage => 0xeda9
  | .LoadCurrent => 0xedad
  | .BatteryMaximumCurrent => 0xedf0

/-- The derived `TryFromPrimitive` conversion for `ItemId`: the wire code
back to the variant, `none` for an unrecognized code. -/
def ItemId.tryFrom (n : Nat) : Option ItemId :=
  if n = 0x0100 then some .Product
  else if n = 0x0104 then some .Group
  else if n = 0x010a then some .Serial
  else if n = 0x010b then some .Model
  else if n = 0x010e then some .Unknown0x010e
  else if n = 0x0140 then some .Capabilities
  else if n = 0x0200 then some .Mode
  else if n = 0x0201 then some .State
  else if n = 0x0202 then some .Remote
  else if n = 0x0205 then some .OffReason1
  else if n = 0x0207 then some .OffReason2
  else if n = 0x104f then some .TotalHistory
  else if n = 0x1050 then some .DailyHistory0
  else if n = 0x2002 then some .BatteryVoltageSense
  else if n = 0x2003 then some .BatteryTemperatureSense
  else if n = 0x200d then some .NetworkInfo
  else if n = 0x200e then some .NetworkMode
  else if n = 0x2013 then some .TotalChargeCurrent
  else if n = 0x2027 then some .TotalDCInputPower
  else if n = 0x2030 then some .SolarActivity
  else if n = 0x2031 then some .TimeOfDay
  else if n = 0xc6a3 then some .Unknown0xc6a3
  else if n = 0xedec then some .BatteryTemperature
  else if n = 0xeddd then some .SystemYield
  else if n = 0xeddb then some .ChargerTemperature
  else if n = 0xedd7 then some .ChargerCurrent
  else if n = 0xedd4 then some .AdditionalChargerStateInfo
  else if n = 0xedd5 then some .ChargerVoltage
  else if n = 0xedd3 then some .YieldToday
  else if n = 0xedd2 then some .MaximumPowerToday
  else if n = 0xedd1 then some .YieldYesterday
  else if n = 0xedd0 then some .MaximumPowerYesterday
  else if n = 0xedbc then some .PanelPower
  else if n = 0xedbb then some .PanelVoltage
  else if n = 0xedbd then some .PanelCurrent
  else if n = 0xeda9 then some .LoadVoltage
  else if n = 0xedad then some .LoadCurrent
  else if n = 0xedf0 then some .BatteryMaximumCurrent
  else none

/-- `struct Flags: u8` (a `bitflags` bitset over `UnknownId = 0x01`,
`NotSupported = 0x02`, `ParameterError = 0x04`). -/
structure Flags where
  bits : Nat
  deriving DecidableEq

/-- `Flags::empty()`. -/
def Flags.empty : Flags := ⟨0⟩

/-- `Flags::from_bits`: `some` exactly when no bit outside the three known
flag bits is set (for a byte value, `bits & !0x07 == 0`, i.e.
`bits &&& 0xF8 = 0`). -/
def Flags.fromBits (n : Nat) : Option Flags :=
  if n &&& 0xF8 == 0 then some ⟨n⟩ else none

/-- `enum Value`: a decoded parameter value.  Unsigned variants carry the
`Nat` value of the Rust `uN`; signed variants carry the `Int` value of the
Rust `iN`; `Ascii` carries the string, `Other` the raw bytes. -/
inductive Value where
  | Empty
  | U8 (v : Nat)
  | I8 (v : Int)
  | U16 (v : Nat)
  | I16 (v : Int)
  | U32 (v : Nat)
  | I32 (v : Int)
  | Ascii (v : String)
  | Other (v : List Nat)
  deriving DecidableEq

/-- The two bytes of `(n as u16).to_le_bytes()`. -/
def le2 (n : Nat) : List Nat := [n % 256, n / 256 % 256]

/-- The four bytes of `(n as u32).to_le_bytes()`. -/
def le4 (n : Nat) : List Nat :=
  [n % 256, n / 256 % 256, n / 65536 % 256, n / 16777216 % 256]

/-- `Value::guess`: width-based heuristic decoding of a payload byte slice.
The source matches on `value.len()` (`0`, `1`, `2`, `4`, `_`) and converts
with `uN::from_le_bytes`; matching the list shape is the same case split. -/
def Value.guess (value : List Nat) : Value :=
  match value with
  | [] => .Empty
  | [a] => .U8 a
  | [a, b] => .U16 (a + 256 * b)
  | [a, b, c, d] => .U32 (a + 256 * b + 65536 * c + 16777216 * d)
  | v => .Other v

/-- `Value::ser(&self, vec: &mut Vec<u8>)`: append the little-endian
encoding of the value to `vec`.  The `as u8` cast of `I8` and the
`to_le_bytes` of the signed variants go through the two's-complement
residue (`Int.emod` by the type's modulus, which is non-negative). -/
def Value.ser (v : Value) (vec : List Nat) : List Nat :=
  match v with
  | .Empty => vec
  | .U8 x => vec ++ [x]
  | .I8 x => vec ++ [(x % 256).toNat]
  | .U16 x => vec ++ le2 x
  | .I16 x => vec ++ le2 (x % 65536).toNat
  | .U32 x => vec ++ le4 x
  | .I32 x => vec ++ le4 (x % 4294967296).toNat
  | .Ascii s => vec ++ (s.toUTF8.toList.map (fun b => b.toNat))
  | .Other w => vec ++ w

/-- `enum Command`: the request vocabulary. -/
inductive Command where
  | Boot
  | Ping
  | Version
  | Product
  | Restart
  | Get (item : ItemId) (flags : Flags)
  | Set (item : ItemId) (flags : Flags) (value : Value)
  | Async (item : ItemId) (flags : Flags) (value : Value)
  deriving DecidableEq

/-- `Command::as_frame`: type-code byte, then for `Get`/`Set`/`Async` the
little-endian item id and the flags byte (plus the serialized value for
`Set`/`Async`), then the trailing checksum byte
`0x55u8.wrapping_sub(f.checksum())`. -/
def Command.asFrame (c : Command) : Frame :=
  let d0 : List Nat :=
    [(match c with
      | .Boot => CommandId.Boot
      | .Ping => CommandId.Ping
      | .Version => CommandId.Version
      | .Product => CommandId.Product
      | .Restart => CommandId.Restart
      | .Get _ _ => CommandId.Get
      | .Set _ _ _ => CommandId.Set
      | .Async _ _ _ => CommandId.Async).code]
  let d1 : List Nat :=
    match c with
    | .Get item flags => d0 ++ le2 item.code ++ [flags.bits]
    | .Set item flags value => Value.ser value (d0 ++ le2 item.code ++ [flags.bits])
    | .Async item flags value => Value.ser value (d0 ++ le2 item.code ++ [flags.bits])
    | _ => d0
  ⟨d1 ++ [(0x55 + 256 - Frame.checksum ⟨d1⟩) % 256]⟩

/-- `enum Response`: the reply vocabulary. -/
inductive Response where
  | Done (v : Value)
  | Unknown (v : Value)
  | Error (e : ErrorId)
  | Ping (flags : Nat) (major : Nat) (minor : Nat)
  | Update (typ : ResponseId) (item : ItemId) (flags : Flags) (value : Value)
  deriving DecidableEq

/-- `fn bcd_to_bin(c: u8) -> u8`. -/
def bcd_to_bin (c : Nat) : Nat := (c &&& 0xf) + 10 * (c >>> 4)

/-- The slice expression `&data[..2]`: Rust range indexing panics (`none`)
when the slice is shorter than two bytes; otherwise it yields the first two
bytes. -/
def sliceTo2 (l : List Nat) : Option (List Nat) :=
  if l.length < 2 then none else some (l.take 2)

/-- `<&[u8] as TryInto<[u8; 2]>>::try_into`: succeeds exactly on a slice of
length two (a `TryFromSliceError`, `Error::Slice`, otherwise). -/
def tryInto2 (l : List Nat) : Except Error (Nat × Nat) :=
  match l with
  | [a, b] => .ok (a, b)
  | _ => .error .Slice

/-- `impl TryFrom<&Frame> for Response`.  `none` models a panic: the
payload slice `&frame.data[1..frame.data.len() - 1]` (taken before the
validity check) panics when the buffer has fewer than two bytes; `&data[..2]`
panics on a payload shorter than two bytes; `data[1]` in the `Ping` arm
panics on a payload shorter than two bytes; `data[2]` in the update arm
panics on a payload shorter than three bytes (after which `&data[3..]` is
in range and total).  Rust evaluates the `Ping` struct fields in source
order (`flags`, `major`, `minor`), so `data[1]` is reached first. -/
def Response.tryFrom (frame : Frame) : Option (Except VeDirect.Error Response) :=
  if frame.data.length < 2 then none
  else
    let data := (frame.data.drop 1).dropLast
    if !frame.valid then some (.error .Checksum)
    else
      match ResponseId.tryFrom frame.data.headI with
      | none => some (.error .Response)
      | some .Done => some (.ok (.Done (Value.guess data)))
      | some .Unknown => some (.ok (.Unknown (Value.guess data)))
      | some .Error =>
          match sliceTo2 data with
          | none => none
          | some s =>
              match tryInto2 s with
              | .error e => some (.error e)
              | .ok (a, b) =>
                  match ErrorId.tryFrom (a + 256 * b) with
                  | none => some (.error .ErrId)
                  | some eid => some (.ok (.Error eid))
      | some .Ping =>
          match data[1]? with
          | none => none
          | some d1 =>
              match data[0]? with
              | none => none
              | some d0 => some (.ok (.Ping (d1 >>> 4) (d1 &&& 0xf) (bcd_to_bin d0)))
      | some typ =>
          match sliceTo2 data with
          | none => none
          | some s =>
              match tryInto2 s with
              | .error e => some (.error e)
              | .ok (a, b) =>
                  match ItemId.tryFrom (a + 256 * b) with
                  | none => some (.error .Item)
                  | some item =>
                      match data[2]? with
                      | none => none
                      | some d2 =>
                          match Flags.fromBits d2 with
                          | none => some (.error .Flags)
                          | some flags =>
                              some (.ok (.Update typ item flags (Value.guess (data.drop 3))))

/-! ## Checksum lemmas -/

/-- Appending one byte to the buffer adds it to the checksum, wrapping. -/
theorem checksum_append (l : List Nat) (x : Nat) :
    Frame.checksum ⟨l ++ [x]⟩ = (Frame.checksum ⟨l⟩ + x) % 256 := by
  simp [Frame.checksum, List.foldl_append]

/-- The wrapping checksum is a byte. -/
theorem checksum_lt (l : List Nat) : Frame.checksum ⟨l⟩ < 256 := by
  simp only [Frame.checksum]
  have h : ∀ (l : List Nat) (a : Nat), a < 256 →
      l.foldl (fun a e => (a + e) % 256) a < 256 := by
    intro l
    induction l with
    | nil => intro a ha; simpa using ha
    | cons x xs ih => intro a ha; exact ih _ (Nat.mod_lt _ (by omega))
  exact h l 0 (by omega)

/-- Appending the byte `0x55.wrapping_sub(checksum)` makes the whole buffer
sum to `0x55`. -/
theorem checksum_complete (l : List Nat) :
    Frame.checksum ⟨l ++ [(0x55 + 256 - Frame.checksum ⟨l⟩) % 256]⟩ = 0x55 := by
  rw [checksum_append]
  have h := checksum_lt l
  omega

/-- C1: every frame built by `Command::as_frame` has 8-bit wrapping byte sum
`0x55` over its whole buffer (type-code byte, payload bytes and the trailing
checksum byte appended as `0x55` minus the wrapping sum of the earlier
bytes). -/
theorem command_asFrame_checksum (c : Command) :
    (Command.asFrame c).checksum = 0x55 := by
  cases c <;> exact checksum_complete _

/-- C3: `Frame::valid` holds exactly on a non-empty buffer whose wrapping
byte sum is `0x55` or `0x00`. -/
theorem frame_valid_iff (f : Frame) :
    f.valid = true ↔ f.data ≠ [] ∧ (f.checksum = 0x55 ∨ f.checksum = 0) := by
  simp [Frame.valid]

/-- C4 counterexample: a freshly created decoder (`Frame::default().de()`,
state `Start`, nothing buffered) already reports `done() = true`, against
the claim that at least one byte must have been buffered. -/
theorem fresh_decoder_done : DeSt.done ⟨[], .Start⟩ = true := rfl

/-- C4 (amended): `FrameDe::done` returns true exactly when the state is
`Start`, with no condition on the buffer; in particular a fresh decoder is
already done. -/
theorem done_iff_state_start (s : DeSt) : s.done = true ↔ s.state = .Start := by
  simp [DeSt.done]

/-- C7: `Value::guess` maps lengths 0/1/2/4 to `Empty`/`U8`/little-endian
`U16`/little-endian `U32` and every other length to `Other` with the bytes
kept verbatim, and `Value::ser` of the guessed variant writes back exactly
the input bytes. -/
theorem value_guess_width_ser (l : List Nat) (hb : ∀ b ∈ l, b < 256) :
    (l = [] → Value.guess l = .Empty) ∧
    (∀ a, l = [a] → Value.guess l = .U8 a) ∧
    (∀ a b, l = [a, b] → Value.guess l = .U16 (a + 256 * b)) ∧
    (∀ a b c d, l = [a, b, c, d] →
      Value.guess l = .U32 (a + 256 * b + 65536 * c + 16777216 * d)) ∧
    (l.length ≠ 0 → l.length ≠ 1 → l.length ≠ 2 → l.length ≠ 4 →
      Value.guess l = .Other l) ∧
    Value.ser (Value.guess l) [] = l := by
  rcases l with _ | ⟨a, _ | ⟨b, _ | ⟨c, _ | ⟨d, _ | ⟨e, rest⟩⟩⟩⟩⟩
  · simp [Value.guess, Value.ser]
  · simp [Value.guess, Value.ser]
  · have ha : a < 256 := hb a (by simp)
    have hb' : b < 256 := hb b (by simp)
    refine ⟨by simp, by simp, ?_, by simp, by simp, ?_⟩
    · intro a' b' h
      injection h with h1 h2
      injection h2 with h2 _
      subst h1; subst h2
      rfl
    · show ([] : List Nat) ++ le2 (a + 256 * b) = [a, b]
      simp only [le2, List.nil_append, List.cons.injEq, and_true]
      exact ⟨by omega, by omega⟩
  · exact ⟨by simp, by simp, by simp, by simp, fun _ _ _ _ => rfl, rfl⟩
  · have ha : a < 256 := hb a (by simp)
    have hb' : b < 256 := hb b (by simp)
    have hc : c < 256 := hb c (by simp)
    have hd : d < 256 := hb d (by simp)
    refine ⟨by simp, by simp, by simp, ?_, by simp, ?_⟩
    · intro a' b' c' d' h
      injection h with h1 h2
      injection h2 with h2 h3
      injection h3 with h3 h4
      injection h4 with h4 _
      subst h1; subst h2; subst h3; subst h4
      rfl
    · show ([] : List Nat) ++ le4 (a + 256 * b + 65536 * c + 16777216 * d) = [a, b, c, d]
      simp only [le4, List.nil_append, List.cons.injEq, and_true]
      refine ⟨by omega, by omega, by omega, by omega⟩
  · exact ⟨by simp, by simp, by simp, by simp, fun _ _ _ _ => rfl, rfl⟩

/-- C7 witness: the heuristic at the concrete two-byte payload `[2, 1]`. -/
theorem value_guess_width_ser_witness :
    Value.ser (Value.guess [2, 1]) [] = [2, 1] :=
  (value_guess_width_ser [2, 1] (by decide)).2.2.2.2.2

/-- C8: in `Text` state each byte is appended verbatim; when the buffer
already ends with `"\nChecksum\t"` the pushed byte (the text block's
checksum byte) is appended and the state returns to `Start`, otherwise the
state stays `Text`; and from `Start` any byte other than `':'` enters
`Text` with that byte as the buffer. -/
theorem text_mode_push (s : DeSt) (c : Nat) :
    (s.state = .Text → checksumTag.isSuffixOf s.data = true →
      s.push c = some (.ok (), ⟨s.data ++ [c], .Start⟩)) ∧
    (s.state = .Text → checksumTag.isSuffixOf s.data = false →
      s.push c = some (.ok (), ⟨s.data ++ [c], .Text⟩)) ∧
    (s.state = .Start → c ≠ 58 →
      s.push c = some (.ok (), ⟨[c], .Text⟩)) := by
  obtain ⟨data, st⟩ := s
  refine ⟨?_, ?_, ?_⟩ <;> intro h1 h2 <;>
    (simp only at h1; subst h1; simp [DeSt.push, h2])

/-- C8 witness: a buffer ending in the marker completes on the next byte. -/
theorem text_mode_push_witness :
    DeSt.push ⟨checksumTag, .Text⟩ 7 = some (.ok (), ⟨checksumTag ++ [7], .Start⟩) :=
  (text_mode_push ⟨checksumTag, .Text⟩ 7).1 rfl (by decide)

/-- `nibble` fails only with the `Hex` error carrying the offending byte. -/
theorem nibble_error_eq (c : Nat) (e : Error) (h : nibble c = .error e) :
    e = .Hex c := by
  unfold nibble at h
  split_ifs at h
  all_goals simp_all

/-- C9: when `FrameDe::push` returns an error, the decoder state and the
frame buffer are exactly as before the call; the error is an invalid hex
digit (`Error::Hex`) and can only arise in the `LowNibble` or `HighNibble`
state. -/
theorem push_error_preserves_state (s s' : DeSt) (c : Nat) (e : Error)
    (h : s.push c = some (.error e, s')) :
    s' = s ∧ e = .Hex c ∧ (s.state = .LowNibble ∨ s.state = .HighNibble) := by
  obtain ⟨data, st⟩ := s
  cases st <;> simp only [DeSt.push] at h
  case Start => split at h <;> simp at h
  case LowNibble =>
    split at h
    · cases h
    · split at h
      · rename_i x hl e' hn
        simp only [Option.some.injEq, Prod.mk.injEq] at h
        obtain ⟨he, hs⟩ := h
        injection he with he
        subst he
        exact ⟨hs.symm, nibble_error_eq c _ hn, Or.inl rfl⟩
      · simp at h
  case HighNibble =>
    split at h
    · simp at h
    · split at h
      · rename_i e' hn
        simp only [Option.some.injEq, Prod.mk.injEq] at h
        obtain ⟨he, hs⟩ := h
        injection he with he
        subst he
        exact ⟨hs.symm, nibble_error_eq c _ hn, Or.inr rfl⟩
      · simp at h
  case Text => split at h <;> simp at h

/-- C9 witness: pushing the non-hex byte `'x'` (120) in `LowNibble` state
errors and leaves the decoder untouched. -/
theorem push_error_preserves_state_witness :
    (⟨[0], State.LowNibble⟩ : DeSt) = ⟨[0], State.LowNibble⟩ ∧
    Error.Hex 120 = Error.Hex 120 ∧
    ((⟨[0], State.LowNibble⟩ : DeSt).state = State.LowNibble ∨
      (⟨[0], State.LowNibble⟩ : DeSt).state = State.HighNibble) :=
  push_error_preserves_state ⟨[0], .LowNibble⟩ ⟨[0], .LowNibble⟩ 120 (.Hex 120)
    (by decide)

set_option maxHeartbeats 1000000 in
/-- A code that no `ItemId` variant carries is rejected by
`ItemId::try_from`: each branch of the derived conversion tests the code of
one variant. -/
theorem itemId_tryFrom_none (n : Nat) (h : ∀ i : ItemId, ItemId.code i ≠ n) :
    ItemId.tryFrom n = none := by
  have hne : ∀ (i : ItemId), n ≠ ItemId.code i := fun i hi => h i hi.symm
  unfold ItemId.tryFrom
  have k1 : n ≠ 0x0100 := hne .Product
  have k2 : n ≠ 0x0104 := hne .Group
  have k3 : n ≠ 0x010a := hne .Serial
  have k4 : n ≠ 0x010b := hne .Model
  have k5 : n ≠ 0x010e := hne .Unknown0x010e
  have k6 : n ≠ 0x0140 := hne .Capabilities
  have k7 : n ≠ 0x0200 := hne .Mode
  have k8 : n ≠ 0x0201 := hne .State
  have k9 : n ≠ 0x0202 := hne .Remote
  have k10 : n ≠ 0x0205 := hne .OffReason1
  have k11 : n ≠ 0x0207 := hne .OffReason2
  have k12 : n ≠ 0x104f := hne .TotalHistory
  have k13 : n ≠ 0x1050 := hne .DailyHistory0
  have k14 : n ≠ 0x2002 := hne .BatteryVoltageSense
  have k15 : n ≠ 0x2003 := hne .BatteryTemperatureSense
  have k16 : n ≠ 0x200d := hne .NetworkInfo
  have k17 : n ≠ 0x200e := hne .NetworkMode
  have k18 : n ≠ 0x2013 := hne .TotalChargeCurrent
  have k19 : n ≠ 0x2027 := hne .TotalDCInputPower
  have k20 : n ≠ 0x2030 := hne .SolarActivity
  have k21 : n ≠ 0x2031 := hne .TimeOfDay
  have k22 : n ≠ 0xc6a3 := hne .Unknown0xc6a3
  have k23 : n ≠ 0xedec := hne .BatteryTemperature
  have k24 : n ≠ 0xeddd := hne .SystemYield
  have k25 : n ≠ 0xeddb := hne .ChargerTemperature
  have k26 : n ≠ 0xedd7 := hne .ChargerCurrent
  have k27 : n ≠ 0xedd4 := hne .AdditionalChargerStateInfo
  have k28 : n ≠ 0xedd5 := hne .ChargerVoltage
  have k29 : n ≠ 0xedd3 := hne .YieldToday
  have k30 : n ≠ 0xedd2 := hne .MaximumPowerToday
  have k31 : n ≠ 0xedd1 := hne .YieldYesterday
  have k32 : n ≠ 0xedd0 := hne .MaximumPowerYesterday
  have k33 : n ≠ 0xedbc := hne .PanelPower
  have k34 : n ≠ 0xedbb := hne .PanelVoltage
  have k35 : n ≠ 0xedbd := hne .PanelCurrent
  have k36 : n ≠ 0xeda9 := hne .LoadVoltage
  have k37 : n ≠ 0xedad := hne .LoadCurrent
  have k38 : n ≠ 0xedf0 := hne .BatteryMaximumCurrent
  rw [if_neg k1, if_neg k2, if_neg k3, if_neg k4, if_neg k5, if_neg k6, if_neg k7, if_neg k8, if_neg k9, if_neg k10, if_neg k11, if_neg k12, if_neg k13, if_neg k14, if_neg k15, if_neg k16, if_neg k17, if_neg k18, if_neg k19, if_neg k20, if_neg k21, if_neg k22, if_neg k23, if_neg k24, if_neg k25, if_neg k26, if_neg k27, if_neg k28, if_neg k29, if_neg k30, if_neg k31, if_neg k32, if_neg k33, if_neg k34, if_neg k35, if_neg k36, if_neg k37, if_neg k38]

/-- C5: parsing a valid `Get`/`Set`/`Async` response frame whose payload
starts with two item-id bytes carrying a code outside the `ItemId`
enumeration fails with `Error::Item` — no panic, no partial response. -/
theorem unknown_item_id_rejected (f : Frame) (a b : Nat) (rest : List Nat)
    (hp : (f.data.drop 1).dropLast = a :: b :: rest)
    (hv : f.valid = true)
    (hid : f.data.headI = 7 ∨ f.data.headI = 8 ∨ f.data.headI = 10)
    (hn : ∀ i : ItemId, ItemId.code i ≠ a + 256 * b) :
    Response.tryFrom f = some (.error .Item) := by
  have hL : f.data.length = rest.length + 2 + 2 := by
    have := congrArg List.length hp
    simpa [List.length_dropLast, List.length_drop] using this
  have hlen : ¬ f.data.length < 2 := by omega
  have hitem := itemId_tryFrom_none _ hn
  simp only [Response.tryFrom]
  rw [if_neg hlen, hp, hv]
  rcases hid with h7 | h8 | hA <;>
    simp [*, ResponseId.tryFrom, sliceTo2, tryInto2] <;>
    rw [if_neg (show ¬ rest.length + 1 + 1 < 2 by omega)] <;>
    simp [hitem]

/-- C5 witness: the valid frame `[0x07, 0x01, 0x00, 0x4D]` (a `Get`
response whose item code `0x0001` is not an `ItemId`) is rejected with
`Error::Item`. -/
theorem unknown_item_id_rejected_witness :
    Response.tryFrom ⟨[7, 1, 0, 0x4D]⟩ = some (.error .Item) :=
  unknown_item_id_rejected ⟨[7, 1, 0, 0x4D]⟩ 1 0 [] (by decide) (by decide)
    (Or.inl (by decide)) (fun i => by cases i <;> decide)

/-- C6: `Response::try_from` is not total — it panics (modelled as `none`)
on the empty default frame (the payload slice `&frame.data[1..len-1]` is
taken before the validity check), on the valid `Ping` frame
`[0x05, 0x00, 0x50]` whose one-byte payload makes `data[1]` index out of
bounds, and on the valid `Error` frame `[0x04, 0x00, 0x51]` whose one-byte
payload makes the `&data[..2]` slice (intended to feed the fallible
`try_into` producing `Error::Slice`) panic first. -/
theorem response_tryFrom_panics :
    Response.tryFrom ⟨[]⟩ = none ∧
    Frame.valid ⟨[5, 0, 0x50]⟩ = true ∧
    Response.tryFrom ⟨[5, 0, 0x50]⟩ = none ∧
    Frame.valid ⟨[4, 0, 0x51]⟩ = true ∧
    Response.tryFrom ⟨[4, 0, 0x51]⟩ = none := by
  decide

/-- The `EXAMPLES` fixture table of the `serde` test, as
`(command, request bytes, response bytes)` triples (ASCII codes of the
test's byte strings). -/
def EXAMPLES : List (Command × List Nat × List Nat) :=
  [(Command.Ping, [58, 49, 53, 52, 10],
      [58, 53, 49, 54, 52, 49, 70, 57, 10]),
   (Command.Version, [58, 51, 53, 50, 10],
      [58, 49, 49, 54, 52, 49, 70, 68, 10]),
   (Command.Product, [58, 52, 53, 49, 10],
      [58, 49, 48, 48, 48, 51, 53, 49, 10]),
   (Command.Get .BatteryMaximumCurrent ⟨0⟩,
      [58, 55, 70, 48, 69, 68, 48, 48, 55, 49, 10],
      [58, 55, 70, 48, 69, 68, 48, 48, 57, 54, 48, 48, 68, 66, 10]),
   (Command.Set .BatteryMaximumCurrent ⟨0⟩ (.U16 100),
      [58, 56, 70, 48, 69, 68, 48, 48, 54, 52, 48, 48, 48, 67, 10],
      [58, 56, 70, 48, 69, 68, 48, 48, 54, 52, 48, 48, 48, 67, 10]),
   (Command.Ping, [58, 50, 53, 51, 10],
      [58, 51, 48, 50, 48, 48, 53, 48, 10]),
   (Command.Restart, [58, 54, 52, 70, 10],
      [58, 65, 48, 49, 48, 50, 48, 48, 48, 53, 52, 51, 10])]

/-- The frames the fixture request byte strings decode to. -/
def expectedRequestFrames : List Frame :=
  [⟨[1, 0x54]⟩, ⟨[3, 0x52]⟩, ⟨[4, 0x51]⟩, ⟨[7, 0xF0, 0xED, 0, 0x71]⟩,
   ⟨[8, 0xF0, 0xED, 0, 0x64, 0, 0x0C]⟩, ⟨[2, 0x53]⟩, ⟨[6, 0x4F]⟩]

/-- The `Response` values the fixture response byte strings parse to (the
`Ping` fields follow the BCD rule `minor = bcd_to_bin`, `major = low
nibble`, `flags = high nibble`; the `Set(BatteryMaximumCurrent)` payload is
`Value::U16(100)`). -/
def expectedResponses : List Response :=
  [.Ping 4 1 16,
   .Done (.U16 16662),
   .Done (.U16 768),
   .Update .Get .BatteryMaximumCurrent ⟨0⟩ (.U16 150),
   .Update .Set .BatteryMaximumCurrent ⟨0⟩ (.U16 100),
   .Unknown (.U16 2),
   .Update .Async .State ⟨0⟩ (.U8 5)]

/-- `Response::try_from(&Frame::try_from(bytes)?)`: decode a wire byte
string to a frame and parse it as a response (`none` is a panic, as
above). -/
def parseResponseBytes (l : List Nat) : Option (Except Error Response) :=
  match Frame.tryFrom l with
  | some (.ok f) => Response.tryFrom f
  | some (.error e) => some (.error e)
  | none => none

/-- C2 counterexample: the sixth fixture pairs `Command::Ping` with the
request byte string `":253\n"`, but `Ping` serializes to `":154\n"` — the
`serde` test never compares the serialization against the fixture's request
bytes. -/
theorem fixture6_request_mismatch :
    (EXAMPLES.get ⟨5, by decide⟩).1 = Command.Ping ∧
    (EXAMPLES.get ⟨5, by decide⟩).2.1 = [58, 50, 53, 51, 10] ∧
    serCollect (Command.asFrame (EXAMPLES.get ⟨5, by decide⟩).1) =
      some [58, 49, 53, 52, 10] ∧
    serCollect (Command.asFrame (EXAMPLES.get ⟨5, by decide⟩).1) ≠
      some (EXAMPLES.get ⟨5, by decide⟩).2.1 := by
  decide

/-- C2 (amended): for every fixture except the sixth, serializing the
command yields exactly the listed request bytes (the sixth, `Command::Ping`
listed with `":253\n"`, serializes to `":154\n"`); for every fixture the
listed request bytes decode to a frame, and decoding then parsing the
listed response bytes yields the expected `Response` variant and field
values. -/
theorem examples_conformance :
    ((EXAMPLES.eraseIdx 5).all fun e =>
        serCollect (Command.asFrame e.1) == some e.2.1) = true ∧
    serCollect (Command.asFrame (EXAMPLES.get ⟨5, by decide⟩).1) =
      some [58, 49, 53, 52, 10] ∧
    ((EXAMPLES.zip expectedRequestFrames).all fun p =>
        Frame.tryFrom p.1.2.1 == some (.ok p.2)) = true ∧
    ((EXAMPLES.zip expectedResponses).all fun p =>
        parseResponseBytes p.1.2.2 == some (.ok p.2)) = true := by
  decide

/-- The uppercase hex digit of a nibble (`hex` with the error case never
taken): the byte `hex n` yields for `n < 16`. -/
def hexDigit (n : Nat) : Nat := if n ≤ 9 then 48 + n else 65 + (n - 10)

/-- The bytes `FrameSer` yields after the first byte's low-nibble digit:
two digits (high then low) per remaining buffered byte, then `'\n'`. -/
def serTailBytes : List Nat → List Nat
  | [] => [10]
  | b :: rest => hexDigit (b >>> 4) :: hexDigit (b &&& 0xf) :: serTailBytes rest

/-- `hex` succeeds on every nibble, yielding its digit. -/
theorem hex_hexDigit : ∀ n, n < 16 → hex n = .ok (hexDigit n) := by decide

/-- `nibble` inverts `hexDigit` on nibbles. -/
theorem nibble_hexDigit : ∀ n, n < 16 → nibble (hexDigit n) = .ok n := by decide

/-- No hex digit is the terminator `'\n'`. -/
theorem hexDigit_ne_ten : ∀ n, n < 16 → hexDigit n ≠ 10 := by decide

set_option maxRecDepth 8192 in
/-- Recombining the two nibbles of a byte gives the byte back. -/
theorem nibbles_recombine : ∀ b, b < 256 → (b >>> 4) <<< 4 ||| (b &&& 15) = b := by
  decide

set_option maxRecDepth 8192 in
/-- The high nibble of a byte is a nibble. -/
theorem shiftRight4_lt : ∀ b, b < 256 → b >>> 4 < 16 := by decide

/-- The low nibble of any value is a nibble. -/
theorem and15_lt (b : Nat) : b &&& 15 < 16 :=
  Nat.lt_succ_of_le Nat.and_le_right

/-- Masking a nibble with `0xF` is the identity. -/
theorem and15_self : ∀ b, b < 16 → b &&& 15 = b := by decide

/-- One unfolding step of the fuelled iterator driver. -/
theorem serCollectFuel_succ (data : List Nat) (fuel : Nat) (s : SerSt) :
    serCollectFuel data (fuel + 1) s =
      match serNext data s with
      | .stop => some []
      | .panic => none
      | .yield b s' =>
          match serCollectFuel data fuel s' with
          | none => none
          | some rest => some (b :: rest) := rfl

/-- Driver step when the iterator yields a byte. -/
theorem serCollectFuel_yield (data : List Nat) (fuel : Nat) (s : SerSt)
    (b : Nat) (s' : SerSt) (h : serNext data s = .yield b s') :
    serCollectFuel data (fuel + 1) s =
      match serCollectFuel data fuel s' with
      | none => none
      | some rest => some (b :: rest) := by
  rw [serCollectFuel_succ, h]

/-- Driver step when the iterator is exhausted. -/
theorem serCollectFuel_stop (data : List Nat) (fuel : Nat) (s : SerSt)
    (h : serNext data s = .stop) :
    serCollectFuel data (fuel + 1) s = some [] := by
  rw [serCollectFuel_succ, h]

/-- From `HighNibble` at position `pre.length` of the buffer `pre ++ rest`
(`pre` the bytes already emitted, non-empty), the iterator yields exactly
the high/low digit pairs of `rest` followed by `'\n'`, given enough fuel. -/
theorem serCollectFuel_high (rest : List Nat) : ∀ (pre : List Nat) (fuel : Nat),
    pre ≠ [] → (∀ b ∈ rest, b < 256) → 2 * rest.length + 2 ≤ fuel →
    serCollectFuel (pre ++ rest) fuel ⟨pre.length, .HighNibble⟩ =
      some (serTailBytes rest) := by
  induction rest with
  | nil =>
      intro pre fuel hpre hb hf
      have hp : 0 < pre.length := List.length_pos.mpr hpre
      simp only [List.length_nil] at hf
      rcases fuel with _ | _ | f
      · omega
      · omega
      · have h1 : serNext (pre ++ []) ⟨pre.length, .HighNibble⟩ =
            .yield 10 ⟨pre.length, .Start⟩ := by
          simp [serNext]
        have h2 : serNext (pre ++ []) ⟨pre.length, .Start⟩ = .stop := by
          simp only [serNext]
          rw [if_pos hp]
        rw [serCollectFuel_yield _ _ _ _ _ h1, serCollectFuel_stop _ _ _ h2]
        rfl
  | cons b rest ih =>
      intro pre fuel hpre hb hf
      have hb0 : b < 256 := hb b (List.mem_cons_self _ _)
      have hget : (pre ++ b :: rest)[pre.length]? = some b := by
        rw [List.getElem?_append_right (Nat.le_refl _)]
        simp
      simp only [List.length_cons] at hf
      rcases fuel with _ | _ | f
      · omega
      · omega
      · have h1 : serNext (pre ++ b :: rest) ⟨pre.length, .HighNibble⟩ =
            .yield (hexDigit (b >>> 4)) ⟨pre.length, .LowNibble⟩ := by
          have hne : (pre.length == (pre ++ b :: rest).length) = false := by
            rw [beq_eq_false_iff_ne]
            simp
          simp only [serNext, hne, Bool.false_eq_true, if_false, hget,
            hex_hexDigit _ (shiftRight4_lt b hb0)]
        have h2 : serNext (pre ++ b :: rest) ⟨pre.length, .LowNibble⟩ =
            .yield (hexDigit (b &&& 0xf)) ⟨pre.length + 1, .HighNibble⟩ := by
          have hidx : pre.length + 1 - 1 = pre.length := rfl
          simp only [serNext, hidx, hget, hex_hexDigit _ (and15_lt b)]
        have h3 : serCollectFuel (pre ++ b :: rest) f
            ⟨pre.length + 1, .HighNibble⟩ = some (serTailBytes rest) := by
          have happ : pre ++ b :: rest = (pre ++ [b]) ++ rest := by simp
          have hlen : pre.length + 1 = (pre ++ [b]).length := by simp
          rw [happ, hlen]
          exact ih (pre ++ [b]) f (by simp)
            (fun x hx => hb x (List.mem_cons_of_mem _ hx)) (by omega)
        rw [serCollectFuel_yield _ _ _ _ _ h1, serCollectFuel_yield _ _ _ _ _ h2,
          h3]
        rfl

/-- `frame.ser().collect()` on a non-empty buffer of bytes: `':'`, the low
digit of the first byte, digit pairs for the remaining bytes, `'\n'`. -/
theorem serCollect_eq (b0 : Nat) (rest : List Nat)
    (hb : ∀ b ∈ b0 :: rest, b < 256) :
    serCollect ⟨b0 :: rest⟩ =
      some (58 :: hexDigit (b0 &&& 0xf) :: serTailBytes rest) := by
  have h1 : serNext (b0 :: rest) ⟨0, .Start⟩ = .yield 58 ⟨0, .LowNibble⟩ := rfl
  have h2 : serNext (b0 :: rest) ⟨0, .LowNibble⟩ =
      .yield (hexDigit (b0 &&& 0xf)) ⟨1, .HighNibble⟩ := by
    have hidx : (b0 :: rest)[0 + 1 - 1]? = some b0 := by simp
    simp only [serNext, hidx, hex_hexDigit _ (and15_lt b0)]
  have hfuel : 2 * (b0 :: rest).length + 3 = (2 * rest.length + 3) + 1 + 1 := by
    simp only [List.length_cons]
    omega
  have h3 : serCollectFuel (b0 :: rest) (2 * rest.length + 3)
      ⟨1, .HighNibble⟩ = some (serTailBytes rest) := by
    have happ : b0 :: rest = [b0] ++ rest := rfl
    rw [happ]
    exact serCollectFuel_high rest [b0] _ (by simp)
      (fun x hx => hb x (List.mem_cons_of_mem _ hx)) (by omega)
  simp only [serCollect]
  rw [hfuel, serCollectFuel_yield _ _ _ _ _ h1, serCollectFuel_yield _ _ _ _ _ h2,
    h3]

/-- Pushing a byte's high-nibble digit in `HighNibble` state appends the
pre-shifted high nibble and moves to `LowNibble`. -/
theorem push_high_digit (acc : List Nat) (b : Nat) (hb : b < 256) :
    DeSt.push ⟨acc, .HighNibble⟩ (hexDigit (b >>> 4)) =
      some (.ok (), ⟨acc ++ [(b >>> 4) <<< 4], .LowNibble⟩) := by
  have h1 : b >>> 4 < 16 := shiftRight4_lt b hb
  have h2 : (hexDigit (b >>> 4) == 10) = false :=
    beq_eq_false_iff_ne.mpr (hexDigit_ne_ten _ h1)
  have h3 : nibble (hexDigit (b >>> 4)) = .ok (b >>> 4) := nibble_hexDigit _ h1
  simp only [DeSt.push, h2, Bool.false_eq_true, if_false, h3]

/-- Pushing a byte's low-nibble digit in `LowNibble` state ORs the low
nibble into the last buffered byte and moves to `HighNibble`. -/
theorem push_low_digit (acc : List Nat) (x b : Nat) :
    DeSt.push ⟨acc ++ [x], .LowNibble⟩ (hexDigit (b &&& 15)) =
      some (.ok (), ⟨acc ++ [x ||| (b &&& 15)], .HighNibble⟩) := by
  have h3 : nibble (hexDigit (b &&& 15)) = .ok (b &&& 15) :=
    nibble_hexDigit _ (and15_lt b)
  simp only [DeSt.push, List.getLast?_concat, h3, List.dropLast_concat]

/-- Feeding the digit pairs plus final `'\n'` of `serTailBytes rest` to a
decoder in `HighNibble` state appends exactly `rest` and ends at `Start`. -/
theorem pushAll_serTail (rest : List Nat) : ∀ acc : List Nat,
    (∀ b ∈ rest, b < 256) →
    pushAll ⟨acc, .HighNibble⟩ (serTailBytes rest) =
      some (.ok ⟨acc ++ rest, .Start⟩) := by
  induction rest with
  | nil =>
      intro acc hb
      simp [serTailBytes, pushAll, DeSt.push]
  | cons b rest ih =>
      intro acc hb
      have hb0 : b < 256 := hb b (List.mem_cons_self _ _)
      simp only [serTailBytes, pushAll, push_high_digit acc b hb0,
        push_low_digit acc _ b, nibbles_recombine b hb0]
      have happ : acc ++ [b] ++ rest = acc ++ b :: rest := by simp
      rw [ih (acc ++ [b]) (fun x hx => hb x (List.mem_cons_of_mem _ hx)), happ]

/-- Feeding any proper non-empty prefix of `serTailBytes rest` to a decoder
in `HighNibble` state succeeds and leaves it away from `Start` (the frame
is not yet done). -/
theorem pushAll_serTail_proper (rest : List Nat) : ∀ (acc p q : List Nat),
    (∀ b ∈ rest, b < 256) → p ++ q = serTailBytes rest → q ≠ [] →
    ∃ s : DeSt, pushAll ⟨acc, .HighNibble⟩ p = some (.ok s) ∧
      s.state ≠ .Start := by
  induction rest with
  | nil =>
      intro acc p q hb hpq hq
      cases p with
      | nil => exact ⟨⟨acc, .HighNibble⟩, rfl, by simp⟩
      | cons x xs =>
          exfalso
          have hlen := congrArg List.length hpq
          have hq' : 0 < q.length := List.length_pos.mpr hq
          simp only [serTailBytes, List.length_append, List.length_cons,
            List.length_nil] at hlen
          omega
  | cons b rest ih =>
      intro acc p q hb hpq hq
      have hb0 : b < 256 := hb b (List.mem_cons_self _ _)
      cases p with
      | nil => exact ⟨⟨acc, .HighNibble⟩, rfl, by simp⟩
      | cons x p2 =>
          simp only [serTailBytes, List.cons_append, List.cons.injEq] at hpq
          obtain ⟨hx, hpq2⟩ := hpq
          subst hx
          cases p2 with
          | nil =>
              refine ⟨⟨acc ++ [(b >>> 4) <<< 4], .LowNibble⟩, ?_, by simp⟩
              simp only [pushAll, push_high_digit acc b hb0]
          | cons y p3 =>
              simp only [List.cons_append, List.cons.injEq] at hpq2
              obtain ⟨hy, hpq3⟩ := hpq2
              subst hy
              obtain ⟨s, hs, hst⟩ := ih (acc ++ [b]) p3 q
                (fun x hx => hb x (List.mem_cons_of_mem _ hx)) hpq3 hq
              refine ⟨s, ?_, hst⟩
              simp only [pushAll, push_high_digit acc b hb0,
                push_low_digit acc _ b, nibbles_recombine b hb0]
              exact hs

/-- The serialized tail always ends with the `'\n'` terminator. -/
theorem serTailBytes_getLast (rest : List Nat) :
    (serTailBytes rest).getLast? = some 10 := by
  induction rest with
  | nil => rfl
  | cons b rest ih =>
      obtain ⟨c, t, hct⟩ : ∃ c t, serTailBytes rest = c :: t := by
        cases rest with
        | nil => exact ⟨10, [], rfl⟩
        | cons y ys => exact ⟨_, _, rfl⟩
      rw [hct] at ih
      simp only [serTailBytes, hct, List.getLast?_cons_cons]
      exact ih

/-- C10: serializing a non-empty frame and feeding the bytes to a fresh
decoder succeeds, reaching `Start` (done) exactly at the final `'\n'`
(every non-empty proper prefix of the byte sequence leaves the decoder away
from `Start`), and reproduces the frame with its first byte masked to its
low nibble — `data[0] &&& 0xF` — so the round trip is the identity exactly
when the first byte is at most `0x0F` (the serializer emits only one digit
for the id byte), and the id byte's high nibble is lost otherwise. -/
theorem ser_de_roundtrip (b0 : Nat) (rest : List Nat)
    (hb : ∀ b ∈ b0 :: rest, b < 256) :
    ∃ bytes : List Nat,
      serCollect ⟨b0 :: rest⟩ = some bytes ∧
      pushAll ⟨[], .Start⟩ bytes = some (.ok ⟨(b0 &&& 0xF) :: rest, .Start⟩) ∧
      (b0 ≤ 0xF → b0 &&& 0xF = b0) ∧
      bytes.getLast? = some 10 ∧
      (∀ p q : List Nat, p ++ q = bytes → p ≠ [] → q ≠ [] →
        ∃ s : DeSt, pushAll ⟨[], .Start⟩ p = some (.ok s) ∧
          s.state ≠ .Start) := by
  have hrest : ∀ b ∈ rest, b < 256 := fun x hx => hb x (List.mem_cons_of_mem _ hx)
  have step1 : DeSt.push ⟨[], .Start⟩ 58 = some (.ok (), ⟨[0], .LowNibble⟩) := rfl
  have step2 : DeSt.push ⟨[0], .LowNibble⟩ (hexDigit (b0 &&& 0xf)) =
      some (.ok (), ⟨[b0 &&& 0xf], .HighNibble⟩) := by
    have h := push_low_digit [] 0 b0
    simpa [Nat.zero_or] using h
  refine ⟨58 :: hexDigit (b0 &&& 0xf) :: serTailBytes rest,
    serCollect_eq b0 rest hb, ?_, ?_, ?_, ?_⟩
  · simp only [pushAll, step1, step2]
    simpa using pushAll_serTail rest [b0 &&& 0xf] hrest
  · intro h15
    exact and15_self b0 (by omega)
  · obtain ⟨c, t, hct⟩ : ∃ c t, serTailBytes rest = c :: t := by
      cases rest with
      | nil => exact ⟨10, [], rfl⟩
      | cons y ys => exact ⟨_, _, rfl⟩
    have hg := serTailBytes_getLast rest
    rw [hct] at hg ⊢
    simp only [List.getLast?_cons_cons]
    exact hg
  · intro p q hpq hp hq
    cases p with
    | nil => exact absurd rfl hp
    | cons x p2 =>
        simp only [List.cons_append, List.cons.injEq] at hpq
        obtain ⟨hx, hpq2⟩ := hpq
        subst hx
        cases p2 with
        | nil => exact ⟨⟨[0], .LowNibble⟩, rfl, by simp⟩
        | cons y p3 =>
            simp only [List.cons_append, List.cons.injEq] at hpq2
            obtain ⟨hy, hpq3⟩ := hpq2
            subst hy
            obtain ⟨s, hs, hst⟩ :=
              pushAll_serTail_proper rest [b0 &&& 0xf] p3 q hrest hpq3 hq
            refine ⟨s, ?_, hst⟩
            simp only [pushAll, step1, step2]
            exact hs

/-- C10 witness: the round trip at the concrete `Ping` command frame
`[0x01, 0x54]`. -/
theorem ser_de_roundtrip_witness :
    ∃ bytes : List Nat,
      serCollect ⟨1 :: [0x54]⟩ = some bytes ∧
      pushAll ⟨[], .Start⟩ bytes = some (.ok ⟨(1 &&& 0xF) :: [0x54], .Start⟩) ∧
      (1 ≤ 0xF → 1 &&& 0xF = 1) ∧
      bytes.getLast? = some 10 ∧
      (∀ p q : List Nat, p ++ q = bytes → p ≠ [] → q ≠ [] →
        ∃ s : DeSt, pushAll ⟨[], .Start⟩ p = some (.ok s) ∧
          s.state ≠ .Start) :=
  ser_de_roundtrip 1 [0x54] (by decide)

end VeDirect
